import Mathlib

/-!
Verification development for the xilov5-overhual model-management core.

The definitions below are shallow embeddings of the Python sources:
`models/model_manager.py` (ModelManager.load_model), `models/gptoss_model.py`
(GPTOSSModel.load_model, GPTOSSModel._extract_final_answer, history slicing in
generate_response), `models/llama31_model.py` (history slicing),
`models/phi_model.py` (PhiTutor.format_prompt and the token-budget logic of
PhiTutor.generate_response) and `app.py` (the /api/chat parameter clamp).

Python strings are modelled as Lean `String`s; the handful of Python string
operations the sources use (strip, lower, split, substring containment,
replace-with-empty) are given structural implementations over `String.data`
so that every definition evaluates inside the kernel.
-/

/-- Python whitespace for `str.strip()` / `str.split()` (ASCII subset). -/
def pyIsSpace (c : Char) : Bool :=
  c = ' ' || c = '\t' || c = '\n' || c = '\r' || c = '\x0b' || c = '\x0c'

/-- Trim whitespace from both ends of a character list. -/
def trimChars (cs : List Char) : List Char :=
  ((cs.dropWhile pyIsSpace).reverse.dropWhile pyIsSpace).reverse

/-- Python `s.strip()`. -/
def pyStrip (s : String) : String := ⟨trimChars s.data⟩

/-- Python `s.lower()` (ASCII, which covers every string the sources test). -/
def pyLower (s : String) : String := ⟨s.data.map Char.toLower⟩

/-- Split a character list on a separator character, keeping empty pieces,
like Python `s.split(sep)`. -/
def splitOnCharAux (sep : Char) : List Char → List Char → List (List Char)
  | [], acc => [acc.reverse]
  | c :: cs, acc =>
    if c = sep then acc.reverse :: splitOnCharAux sep cs []
    else splitOnCharAux sep cs (c :: acc)

/-- Python `s.split('\n')`. -/
def pySplitLines (s : String) : List String :=
  (splitOnCharAux '\n' s.data []).map (fun cs => ⟨cs⟩)

/-- Helper for Python's substring test `needle in hay`. -/
def pyContainsAux (needle : List Char) : List Char → Bool
  | [] => needle.isEmpty
  | c :: cs => needle.isPrefixOf (c :: cs) || pyContainsAux needle cs

/-- Python `needle in hay` (substring containment). -/
def pyContains (hay needle : String) : Bool := pyContainsAux needle.data hay.data

/-- Helper for `pyRemove`: scan the text left to right; a positive counter
means we are inside a matched occurrence and drop characters. -/
def removeAllGo (pat : List Char) : Nat → List Char → List Char
  | _, [] => []
  | k + 1, _ :: cs => removeAllGo pat k cs
  | 0, c :: cs =>
    if pat.isPrefixOf (c :: cs) then removeAllGo pat (pat.length - 1) cs
    else c :: removeAllGo pat 0 cs

/-- Python `s.replace(pat, "")` for a non-empty `pat`: remove every
(non-overlapping, left-to-right) occurrence. -/
def pyRemove (s pat : String) : String := ⟨removeAllGo pat.data 0 s.data⟩

/-- Helper for Python `len(s.split())`: count maximal non-whitespace runs.
The flag records whether the previous character was inside a word. -/
def wordCountAux : Bool → List Char → Nat
  | _, [] => 0
  | inWord, c :: cs =>
    if pyIsSpace c then wordCountAux false cs
    else (if inWord then 0 else 1) + wordCountAux true cs

/-- Python `len(s.split())`. -/
def pyWordCount (s : String) : Nat := wordCountAux false s.data

/-- Python `"\n".join(ls)`. -/
def joinWith (sep : String) : List String → String
  | [] => ""
  | [s] => s
  | s :: ss => s ++ sep ++ joinWith sep ss

/-! ## GPTOSSModel._extract_final_answer (gptoss_model.py, lines 234-294) -/

/-- The apostrophe character, U+0027. -/
def apoChar : Char := Char.ofNat 39

/-- The apostrophe as a one-character string (used inside two meta-phrases). -/
def apoStr : String := ⟨[apoChar]⟩

/-- The fixed meta-reasoning phrase list of `_extract_final_answer`. -/
def metaPhrases : List String :=
  ["we need to", "we should", "i need to", "i should",
   "let me", "let" ++ apoStr ++ "s", "so we", "thus we",
   "the student" ++ apoStr ++ "s answer", "the student answer",
   "the correct answer is", "the answer is",
   "the difference", "wait", "actually",
   "spelled", " vs ", "missing the",
   "the hint should", "give a hint", "provide a hint"]

/-- `line.strip().lower()` contains some meta phrase (the per-line reasoning
test of the extraction loop). -/
def isReasoningLine (line : String) : Bool :=
  metaPhrases.any (fun p => pyContains (pyLower (pyStrip line)) p)

/-- The `answer_start_index` scan: `asi` is the accumulator, `i` the index of
the head of the remaining line list.  Blank lines are skipped, a reasoning
line pushes the accumulator to `i + 1`, and the first non-blank
non-reasoning line returns its own index. -/
def answerStartGo : Nat → Nat → List String → Nat
  | asi, _, [] => asi
  | asi, i, l :: ls =>
    if pyStrip l = "" then answerStartGo asi (i + 1) ls
    else if isReasoningLine l then answerStartGo (i + 1) (i + 1) ls
    else i

/-- The three template-tag removals at the top of `_extract_final_answer`. -/
def tagStrip (s : String) : String :=
  pyRemove (pyRemove (pyRemove s "<|channel|>analysis<|message|>")
    "<|channel|>final<|message|>") "<|end|>"

/-- `GPTOSSModel._extract_final_answer`: strip template tags, split the
trimmed text into lines, skip the leading reasoning section, join the
remaining non-blank lines (each stripped); if nothing remains, fall back to
the whole (tag-stripped, trimmed) text. -/
def extract_final_answer (response_text : String) : String :=
  let t := tagStrip response_text
  let lines := pySplitLines (pyStrip t)
  let asi := answerStartGo 0 0 lines
  let answerLines := ((lines.drop asi).map pyStrip).filter (fun l => l ≠ "")
  if answerLines.isEmpty then pyStrip t
  else pyStrip (joinWith "\n" answerLines)

/-- Modelled from the claim's words (C7): return everything from the first
line that contains none of the meta phrases onward, preserving line breaks
(the spec's fallback applies only when every line matches). -/
def specExtractC7 (text : String) : String :=
  let lines := pySplitLines text
  match lines.findIdx? (fun l => !(isReasoningLine l)) with
  | some j => joinWith "\n" (lines.drop j)
  | none => text

/-- A line that is neither blank (after stripping) nor a reasoning line:
the extraction loop stops at the first such line. -/
def cleanLine (l : String) : Bool := (pyStrip l != "") && !(isReasoningLine l)

/-- The suffix of the line list starting at the first clean line, if any. -/
def firstCleanSuffix : List String → Option (List String)
  | [] => none
  | l :: ls => if cleanLine l then some (l :: ls) else firstCleanSuffix ls

/-- Amended reading of C7 (blank lines dropped, lines stripped): join the
stripped non-blank lines from the first clean line onward; with no clean
line, fall back to the tag-stripped trimmed text. -/
def specExtractAmendedC7 (text : String) : String :=
  let t := tagStrip text
  let lines := pySplitLines (pyStrip t)
  match firstCleanSuffix lines with
  | some suf => pyStrip (joinWith "\n" ((suf.map pyStrip).filter (fun l => l ≠ "")))
  | none => pyStrip t

/-! ## PhiTutor.generate_response token budget (phi_model.py, lines 203-226)
    and the /api/chat parameter clamp (app.py, lines 213-219) -/

/-- The greeting tokens tested by substring containment. -/
def greetings : List String :=
  ["hello", "hi", "hey", "thanks", "thank you", "bye", "goodbye"]

/-- The math-marker tokens (`simple_math`). -/
def mathOps : List String :=
  ["+", "-", "*", "/", "plus", "minus", "times", "divided"]

/-- The explanation-marker tokens (`asks_explanation`). -/
def explanationWords : List String :=
  ["explain", "how", "why", "tell me", "describe", "what is", "show me"]

/-- `app.py`: `max_new_tokens = max(128, min(2048, int(max_new_tokens)))`. -/
def app_clamp_max_new_tokens (requested : Int) : Int :=
  max 128 (min 2048 requested)

/-- The `max_new_tokens` actually used by `PhiTutor.generate_response` after
its question-complexity branches. -/
def phi_effective_max_tokens (user_message : String) (max_new_tokens : Int) : Int :=
  let question_words : Nat := pyWordCount (pyStrip user_message)
  let question_lower : String := pyStrip (pyLower user_message)
  let is_greeting := greetings.any (fun g => pyContains question_lower g)
  let simple_math := mathOps.any (fun op => pyContains question_lower op)
  if is_greeting = true ∧ question_words ≤ 5 then 50
  else if simple_math = true ∧ question_words ≤ 15 then 50
  else if question_words ≤ 10 then min max_new_tokens 200
  else if question_words ≤ 25 then min max_new_tokens 400
  else min max_new_tokens 1024

/-- Modelled from the claim's words (C4): the caller's requested budget,
clamped to a global maximum of 2048. -/
def specEffectiveC4 (requested : Int) : Int := min requested 2048

/-! ## Prompt history selection (phi_model.py 169-176, gptoss_model.py
    179-191, llama31_model.py 164-168) -/

/-- A chat message as the adapters receive it. -/
structure Msg where
  role : String
  content : String
deriving DecidableEq, Repr

/-- `PhiTutor.format_prompt`: system message, then the WHOLE supplied
conversation history, then the current user message. -/
def phi_format_prompt_messages (system_message : String)
    (conversation_history : List Msg) (user_message : String) : List Msg :=
  (⟨"system", system_message⟩ :: conversation_history) ++ [⟨"user", user_message⟩]

/-- Python `h[-6:]`: the last six elements (all of them when fewer). -/
def pyLastSix {α : Type} (h : List α) : List α := h.drop (h.length - 6)

/-- The history messages `GPTOSSModel.generate_response` renders into its
prompt: the last six, keeping only user/assistant roles. -/
def gptoss_history_msgs (conversation_history : List Msg) : List Msg :=
  (pyLastSix conversation_history).filter
    (fun m => m.role == "user" || m.role == "assistant")

/-- The history messages `Llama31Model.generate_response` renders into its
prompt: the last six (every role is rendered, remapped to user/assistant). -/
def llama31_history_msgs (conversation_history : List Msg) : List Msg :=
  pyLastSix conversation_history

/-! ## GPTOSSModel.load_model health polling (gptoss_model.py, lines 88-120) -/

/-- How a subprocess-server start can fail: the server process exited early
(`RuntimeError`, the launch-crash error) or the 120 s window elapsed
(`TimeoutError`, the health-check timeout). -/
inductive StartErr where
  | crash
  | timeout
deriving DecidableEq, Repr

/-- The polling loop of `GPTOSSModel.load_model`: at second `i`, consult the
health endpoint (`health i`, `some code` = an HTTP status, `none` = request
exception), break on 200, fail with `crash` if the process has exited
(`exited i`), otherwise sleep and retry; the for-else branch re-checks the
process and otherwise raises the timeout error. -/
def healthLoop (health : Nat → Option Nat) (exited : Nat → Bool) :
    Nat → Nat → Except StartErr Nat
  | 0, i => if exited i then .error .crash else .error .timeout
  | fuel + 1, i =>
    if health i = some 200 then .ok i
    else if exited i then .error .crash
    else healthLoop health exited fuel (i + 1)

/-- `GPTOSSModel.load_model` outcome as a function of the health/process
traces: ok iff the poll loop broke on a 200 within 120 iterations. -/
def gptoss_load_model (health : Nat → Option Nat) (exited : Nat → Bool) :
    Except StartErr Unit :=
  match healthLoop health exited 120 0 with
  | .ok _ => .ok ()
  | .error e => .error e

/-! ## ModelManager.load_model (model_manager.py, lines 122-215) -/

/-- The per-model registry fields `load_model` consults. -/
structure ModelInfo where
  exclusive : Bool
  compatible : Bool
deriving DecidableEq, Repr

/-- A registry: what `AVAILABLE_MODELS` lookup yields per key. -/
def Registry : Type := String → Option ModelInfo

/-- Association-list lookup (Python dict access / `in` test). -/
def assocLookup {α : Type} : List (String × α) → String → Option α
  | [], _ => none
  | (k, v) :: rest, key => if k = key then some v else assocLookup rest key

/-- The `AVAILABLE_MODELS` table of `model_manager.py` (its `exclusive` and
initial `compatible` fields; `gpt-oss-20b` is the sole exclusive model). -/
def availableModels : List (String × ModelInfo) :=
  [("phi-3.5", ⟨false, false⟩),
   ("mistral-7b-v0.2", ⟨false, false⟩),
   ("mistral-7b-v0.3", ⟨false, false⟩),
   ("gpt-j-6b", ⟨false, true⟩),
   ("gpt-oss-20b", ⟨true, true⟩)]

/-- The registry read off `availableModels`. -/
def stdRegistry : Registry := fun k => assocLookup availableModels k

/-- Whether a key's descriptor is exclusive (unknown keys count as not). -/
def isExclKey (reg : Registry) (k : String) : Bool :=
  match reg k with
  | some info => info.exclusive
  | none => false

/-- The environment a single `load_model` call runs in: whether the dynamic
module import, instantiation and adapter loading succeed, and which
instances raise from `unload()`. -/
structure PyEnv where
  loadOk : Bool
  unloadRaises : Nat → Bool

/-- `ModelManager` mutable state: `loaded_models` as an insertion-ordered
association list (a Python dict), the two role pointers, and a counter
allocating fresh instance identities. -/
structure MgrState where
  loaded_models : List (String × Nat)
  chat_model : Option Nat
  evaluation_model : Option Nat
  nextInst : Nat
deriving DecidableEq, Repr

/-- Result of a Python call: a returned value, or an uncaught exception. -/
inductive PyResult (α : Type) where
  | ok : α → PyResult α
  | raised : PyResult α
deriving DecidableEq, Repr

/-- Outcome of the eviction loop: the surviving `loaded_models` entries and
the instances whose `unload()` completed; `raised` if some `unload()` threw
(the entry being evicted then stays, since its `del` never runs). -/
inductive EvictOut where
  | done : List (String × Nat) → List Nat → EvictOut
  | raised : List (String × Nat) → List Nat → EvictOut
deriving DecidableEq, Repr

/-- The eviction loop of the exclusive-model branch: walk the snapshot of
`loaded_models`, keep entries for `model_key`, unload and delete the rest.
There is no try/except around `instance.unload()`. -/
def evictLoop (env : PyEnv) (model_key : String) :
    List (String × Nat) → EvictOut
  | [] => .done [] []
  | (k, inst) :: rest =>
    if k = model_key then
      match evictLoop env model_key rest with
      | .done r st => .done ((k, inst) :: r) st
      | .raised r st => .raised ((k, inst) :: r) st
    else if env.unloadRaises inst then .raised ((k, inst) :: rest) []
    else
      match evictLoop env model_key rest with
      | .done r st => .done r (inst :: st)
      | .raised r st => .raised r (inst :: st)

/-- What one `ModelManager.load_model` call produces: the Python result
(`ok (some inst)`, `ok none`, or an uncaught exception), the state after the
call, and the instances unloaded during eviction. -/
structure LoadOut where
  result : PyResult (Option Nat)
  state : MgrState
  stopped : List Nat
deriving DecidableEq, Repr

/-- `ModelManager.load_model(model_key, role)`.  Mirrors the source: unknown
or incompatible keys return `None`; an exclusive request first unloads every
other resident instance and clears both role pointers (whenever
`loaded_models` is non-empty); an already-loaded key returns its cached
instance; a non-exclusive request is refused while an exclusive instance is
resident; otherwise a fresh instance is constructed, cached, and bound to
the requested role. -/
def load_model (reg : Registry) (env : PyEnv) (s : MgrState)
    (model_key role : String) : LoadOut :=
  match reg model_key with
  | none => ⟨.ok none, s, []⟩
  | some info =>
    if info.compatible = false then ⟨.ok none, s, []⟩
    else
      let phase1 : (MgrState × List Nat) ⊕ LoadOut :=
        if info.exclusive = true ∧ s.loaded_models ≠ [] then
          match evictLoop env model_key s.loaded_models with
          | .done r st =>
            .inl ({ s with loaded_models := r,
                           chat_model := none,
                           evaluation_model := none }, st)
          | .raised r st => .inr ⟨.raised, { s with loaded_models := r }, st⟩
        else .inl (s, [])
      match phase1 with
      | .inr out => out
      | .inl (s1, st) =>
        match assocLookup s1.loaded_models model_key with
        | some inst => ⟨.ok (some inst), s1, st⟩
        | none =>
          let exclusive_loaded := s1.loaded_models.any
            (fun p => isExclKey reg p.1)
          if exclusive_loaded = true ∧ info.exclusive = false then
            ⟨.ok none, s1, st⟩
          else if env.loadOk then
            let inst := s.nextInst
            ⟨.ok (some inst),
             { loaded_models := s1.loaded_models ++ [(model_key, inst)],
               chat_model := if role = "chat" then some inst else s1.chat_model,
               evaluation_model :=
                 if role = "evaluation" then some inst else s1.evaluation_model,
               nextInst := s.nextInst + 1 }, st⟩
          else ⟨.ok none, s1, st⟩

/-- `get_chat_model` / `get_evaluation_model` as one role-indexed reader. -/
def roleGet (s : MgrState) (role : String) : Option Nat :=
  if role = "chat" then s.chat_model
  else if role = "evaluation" then s.evaluation_model
  else none

/-- One activation request of a call sequence. -/
structure CallSpec where
  env : PyEnv
  model_key : String
  role : String

/-- A fresh `ModelManager` (empty ResidencySet, unbound role pointers). -/
def initState : MgrState := ⟨[], none, none, 0⟩

/-- Run a sequence of `load_model` calls. -/
def runCalls (reg : Registry) (calls : List CallSpec) (s : MgrState) : MgrState :=
  calls.foldl (fun st c => (load_model reg c.env st c.model_key c.role).state) s

/-- The exclusivity invariant on the ResidencySet: an exclusive resident is
the sole resident. -/
def ExclusiveInv (reg : Registry) (l : List (String × Nat)) : Prop :=
  ∀ p ∈ l, isExclKey reg p.1 = true → l = [p]

/-- Dict well-formedness: `loaded_models` keys are distinct. -/
def KeysNodup (l : List (String × Nat)) : Prop := (l.map Prod.fst).Nodup

/-! ## Lemmas about the manager embedding -/

theorem assocLookup_mem {α : Type} :
    ∀ (l : List (String × α)) (k : String) (v : α),
      assocLookup l k = some v → (k, v) ∈ l := by
  intro l
  induction l with
  | nil => intro k v h; simp [assocLookup] at h
  | cons p rest ih =>
    intro k v h
    obtain ⟨k', v'⟩ := p
    by_cases hk : k' = k
    · subst hk
      simp [assocLookup] at h
      subst h
      exact List.mem_cons_self _ _
    · simp [assocLookup, hk] at h
      exact List.mem_cons_of_mem _ (ih k v h)

theorem assocLookup_eq_none {α : Type} :
    ∀ (l : List (String × α)) (k : String),
      assocLookup l k = none ↔ k ∉ l.map Prod.fst := by
  intro l
  induction l with
  | nil => intro k; simp [assocLookup]
  | cons p rest ih =>
    intro k
    obtain ⟨k', v'⟩ := p
    by_cases hk : k' = k
    · subst hk; simp [assocLookup]
    · simp [assocLookup, hk, ih k, fun h => hk (Eq.symm h)]
      intro h
      exact fun hh => hk hh.symm

theorem evictLoop_done_eq (env : PyEnv) (key : String) :
    ∀ (l r : List (String × Nat)) (st : List Nat),
      evictLoop env key l = .done r st →
      r = l.filter (fun p => p.1 == key) := by
  intro l
  induction l with
  | nil =>
    intro r st h
    simp only [evictLoop, EvictOut.done.injEq] at h
    simp [← h.1]
  | cons p rest ih =>
    intro r st h
    obtain ⟨k, inst⟩ := p
    by_cases hk : k = key
    · subst hk
      cases hE : evictLoop env k rest with
      | done r' st' =>
        simp [evictLoop, hE] at h
        simp [← h.1, ih r' st' hE]
      | raised r' st' => simp [evictLoop, hE] at h
    · by_cases hr : env.unloadRaises inst = true
      · simp [evictLoop, hk, hr] at h
      · cases hE : evictLoop env key rest with
        | done r' st' =>
          simp [evictLoop, hk, hr, hE] at h
          have hbeq : (k == key) = false := by simp [hk]
          simp [← h.1, ih r' st' hE, List.filter, hbeq]
        | raised r' st' => simp [evictLoop, hk, hr, hE] at h

theorem evictLoop_raised_sublist (env : PyEnv) (key : String) :
    ∀ (l r : List (String × Nat)) (st : List Nat),
      evictLoop env key l = .raised r st → r.Sublist l := by
  intro l
  induction l with
  | nil => intro r st h; simp [evictLoop] at h
  | cons p rest ih =>
    intro r st h
    obtain ⟨k, inst⟩ := p
    by_cases hk : k = key
    · subst hk
      cases hE : evictLoop env k rest with
      | done r' st' => simp [evictLoop, hE] at h
      | raised r' st' =>
        simp [evictLoop, hE] at h
        rw [← h.1]
        exact List.Sublist.cons₂ _ (ih r' st' hE)
    · by_cases hr : env.unloadRaises inst = true
      · simp [evictLoop, hk, hr] at h
        rw [← h.1]
      · cases hE : evictLoop env key rest with
        | done r' st' => simp [evictLoop, hk, hr, hE] at h
        | raised r' st' =>
          simp [evictLoop, hk, hr, hE] at h
          rw [← h.1]
          exact List.Sublist.cons _ (ih r' st' hE)

theorem evictLoop_raises_of_bad (env : PyEnv) (key : String) :
    ∀ (l : List (String × Nat)),
      (∃ p ∈ l, p.1 ≠ key ∧ env.unloadRaises p.2 = true) →
      ∃ r st, evictLoop env key l = .raised r st := by
  intro l
  induction l with
  | nil => rintro ⟨p, hp, _⟩; simp at hp
  | cons q rest ih =>
    rintro ⟨p, hp, hne, hraise⟩
    obtain ⟨k, inst⟩ := q
    by_cases hk : k = key
    · subst hk
      have hmem : p ∈ rest := by
        rcases List.mem_cons.mp hp with h | h
        · exact absurd (by rw [h]) hne
        · exact h
      obtain ⟨r, st, hE⟩ := ih ⟨p, hmem, hne, hraise⟩
      exact ⟨(k, inst) :: r, st, by simp [evictLoop, hE]⟩
    · by_cases hr : env.unloadRaises inst = true
      · exact ⟨(k, inst) :: rest, [], by simp [evictLoop, hk, hr]⟩
      · have hmem : p ∈ rest := by
          rcases List.mem_cons.mp hp with h | h
          · rw [h] at hraise; exact absurd hraise hr
          · exact h
        obtain ⟨r, st, hE⟩ := ih ⟨p, hmem, hne, hraise⟩
        exact ⟨r, inst :: st, by simp [evictLoop, hk, hr, hE]⟩

theorem keysNodup_sublist {l r : List (String × Nat)}
    (hs : r.Sublist l) (h : KeysNodup l) : KeysNodup r :=
  List.Nodup.sublist (List.Sublist.map Prod.fst hs) h

theorem exclusiveInv_sublist {reg : Registry} {l r : List (String × Nat)}
    (hs : r.Sublist l) (h : ExclusiveInv reg l) : ExclusiveInv reg r := by
  intro p hp hexcl
  have hpl : p ∈ l := hs.mem hp
  have hl : l = [p] := h p hpl hexcl
  rw [hl] at hs
  rcases List.sublist_singleton.mp hs with h0 | h0
  · rw [h0] at hp; simp at hp
  · exact h0

theorem exclusiveInv_singleton (reg : Registry) (p : String × Nat) :
    ExclusiveInv reg [p] := by
  intro q hq _
  simp at hq
  rw [hq]

theorem filter_key_of_nodup (key : String) :
    ∀ (l : List (String × Nat)), KeysNodup l →
      l.filter (fun p => p.1 == key) = [] ∨
      ∃ i, l.filter (fun p => p.1 == key) = [(key, i)] := by
  intro l
  induction l with
  | nil => intro _; left; rfl
  | cons p rest ih =>
    intro h
    obtain ⟨k, inst⟩ := p
    have hrest : KeysNodup rest := (List.nodup_cons.mp h).2
    have hknot : k ∉ rest.map Prod.fst := (List.nodup_cons.mp h).1
    by_cases hk : k = key
    · subst hk
      right
      refine ⟨inst, ?_⟩
      have hnone : rest.filter (fun p => p.1 == k) = [] := by
        rw [List.filter_eq_nil_iff]
        intro q hq
        simp only [Bool.not_eq_true, beq_eq_false_iff_ne, ne_eq]
        intro hqk
        exact hknot (hqk ▸ List.mem_map_of_mem Prod.fst hq)
      simp [List.filter, hnone]
    · have hbeq : (k == key) = false := by simp [hk]
      simpa [List.filter, hbeq] using ih hrest

theorem assocLookup_none_of_sublist {l r : List (String × Nat)} {key : String}
    (hs : r.Sublist l) (h : assocLookup l key = none) :
    assocLookup r key = none := by
  rw [assocLookup_eq_none] at h ⊢
  exact fun hmem => h ((List.Sublist.map Prod.fst hs).mem hmem)

theorem assocLookup_some_iff_filter {key : String} :
    ∀ (l : List (String × Nat)),
      assocLookup l key = none ↔ l.filter (fun p => p.1 == key) = [] := by
  intro l
  induction l with
  | nil => simp [assocLookup]
  | cons p rest ih =>
    obtain ⟨k, inst⟩ := p
    by_cases hk : k = key
    · subst hk
      simp [assocLookup, List.filter]
    · have hbeq : (k == key) = false := by simp [hk]
      simpa [assocLookup, hk, List.filter, hbeq] using ih

theorem load_model_preserves (reg : Registry) (env : PyEnv) (s : MgrState)
    (key role : String)
    (hwf : KeysNodup s.loaded_models) (hinv : ExclusiveInv reg s.loaded_models) :
    KeysNodup (load_model reg env s key role).state.loaded_models ∧
    ExclusiveInv reg (load_model reg env s key role).state.loaded_models := by
  cases hreg : reg key with
  | none => simp only [load_model, hreg]; exact ⟨hwf, hinv⟩
  | some info =>
    by_cases hcomp : info.compatible = false
    · simp only [load_model, hreg, if_pos hcomp]
      exact ⟨hwf, hinv⟩
    · by_cases hex : info.exclusive = true ∧ s.loaded_models ≠ []
      · cases hE : evictLoop env key s.loaded_models with
        | raised r st =>
          simp only [load_model, hreg, if_neg hcomp, if_pos hex, hE]
          have hsub := evictLoop_raised_sublist env key s.loaded_models r st hE
          exact ⟨keysNodup_sublist hsub hwf, exclusiveInv_sublist hsub hinv⟩
        | done r st =>
          simp only [load_model, hreg, if_neg hcomp, if_pos hex, hE]
          have hr := evictLoop_done_eq env key s.loaded_models r st hE
          rcases filter_key_of_nodup key s.loaded_models hwf with hfil | ⟨i, hfil⟩
          · rw [hr, hfil]
            simp only [assocLookup]
            have hany : ([] : List (String × Nat)).any (fun p => isExclKey reg p.1) = false := rfl
            by_cases hok : env.loadOk
            · simp only [hany, List.any_nil, hok, if_pos, Bool.false_eq_true, false_and, if_neg,
                not_false_eq_true, if_true]
              constructor
              · simp [KeysNodup]
              · exact exclusiveInv_singleton reg _
            · simp only [List.any_nil, Bool.false_eq_true, false_and, if_neg, not_false_eq_true,
                hok, if_false]
              exact ⟨List.nodup_nil, fun p hp => by simp at hp⟩
          · rw [hr, hfil]
            have hlook : assocLookup [(key, i)] key = some i := by simp [assocLookup]
            simp only [hlook]
            exact ⟨by simp [KeysNodup], exclusiveInv_singleton reg _⟩
      · simp only [load_model, hreg, if_neg hcomp, if_neg hex]
        cases hlook : assocLookup s.loaded_models key with
        | some inst => simp only; exact ⟨hwf, hinv⟩
        | none =>
          by_cases hrev : (s.loaded_models.any (fun p => isExclKey reg p.1)) = true ∧
              info.exclusive = false
          · simp only [if_pos hrev]
            exact ⟨hwf, hinv⟩
          · simp only [if_neg hrev]
            by_cases hok : env.loadOk
            · simp only [if_pos hok]
              have hkey_not : key ∉ s.loaded_models.map Prod.fst :=
                (assocLookup_eq_none s.loaded_models key).mp hlook
              constructor
              · unfold KeysNodup
                rw [List.map_append]
                rw [List.nodup_append]
                exact ⟨hwf, List.nodup_singleton key,
                  by simpa [List.disjoint_left] using fun h => hkey_not h⟩
              · by_cases hexc : info.exclusive = true
                · have hempty : s.loaded_models = [] := by
                    by_contra hne
                    exact hex ⟨hexc, hne⟩
                  rw [hempty]
                  exact exclusiveInv_singleton reg _
                · have hnoexc : s.loaded_models.any (fun p => isExclKey reg p.1) = false := by
                    by_contra hany
                    have : s.loaded_models.any (fun p => isExclKey reg p.1) = true := by
                      revert hany
                      cases s.loaded_models.any (fun p => isExclKey reg p.1) <;> simp
                    exact hrev ⟨this, by revert hexc; cases info.exclusive <;> simp⟩
                  intro p hp hexcl
                  rcases List.mem_append.mp hp with hmem | hmem
                  · exfalso
                    have := List.any_eq_false.mp hnoexc p hmem
                    rw [hexcl] at this
                    exact absurd rfl this
                  · exfalso
                    have hpk : p = (key, s.nextInst) := by simpa using hmem
                    rw [hpk] at hexcl
                    simp only [isExclKey, hreg] at hexcl
                    revert hexc
                    rw [hexcl]
                    simp
            · simp only [if_neg hok]
              exact ⟨hwf, hinv⟩

theorem runCalls_inv (reg : Registry) (calls : List CallSpec) :
    KeysNodup (runCalls reg calls initState).loaded_models ∧
    ExclusiveInv reg (runCalls reg calls initState).loaded_models := by
  suffices h : ∀ (s : MgrState), KeysNodup s.loaded_models →
      ExclusiveInv reg s.loaded_models →
      KeysNodup (runCalls reg calls s).loaded_models ∧
      ExclusiveInv reg (runCalls reg calls s).loaded_models by
    exact h initState (by simp [initState, KeysNodup])
      (fun p hp _ => by simp [initState] at hp)
  induction calls with
  | nil => intro s h1 h2; exact ⟨h1, h2⟩
  | cons c rest ih =>
    intro s h1 h2
    have hstep := load_model_preserves reg c.env s c.model_key c.role h1 h2
    exact ih _ hstep.1 hstep.2

/-- C1: for every sequence of `load_model` (activate) calls starting from a
fresh manager, after each call the set of loaded models is either empty,
exactly one instance whose descriptor is exclusive, or only instances whose
descriptors are non-exclusive — never an exclusive instance together with
any other instance. -/
theorem c1_exclusivity_invariant (reg : Registry) (calls : List CallSpec) :
    (runCalls reg calls initState).loaded_models = [] ∨
    (∃ k i, (runCalls reg calls initState).loaded_models = [(k, i)] ∧
      isExclKey reg k = true) ∨
    (∀ p ∈ (runCalls reg calls initState).loaded_models,
      isExclKey reg p.1 = false) := by
  have hinv := (runCalls_inv reg calls).2
  by_cases hex : ∃ p ∈ (runCalls reg calls initState).loaded_models,
      isExclKey reg p.1 = true
  · obtain ⟨p, hp, hexcl⟩ := hex
    right; left
    exact ⟨p.1, p.2, by rw [hinv p hp hexcl], hexcl⟩
  · right; right
    intro p hp
    by_contra h
    exact hex ⟨p, hp, by revert h; cases isExclKey reg p.1 <;> simp⟩

/-- C6: activation is idempotent — when an instance for `key` is already in
`loaded_models` (and the key is known and compatible, which any loaded key
is), `load_model` returns that very cached instance, constructs no new
instance (the allocation counter is untouched), stops nothing, and leaves
`loaded_models` unchanged. -/
theorem c6_idempotent_activation (reg : Registry) (env : PyEnv) (s : MgrState)
    (key role : String) (info : ModelInfo) (inst : Nat)
    (hinv : ExclusiveInv reg s.loaded_models)
    (hreg : reg key = some info) (hcomp : info.compatible = true)
    (hloaded : assocLookup s.loaded_models key = some inst) :
    (load_model reg env s key role).result = .ok (some inst) ∧
    (load_model reg env s key role).state.loaded_models = s.loaded_models ∧
    (load_model reg env s key role).state.nextInst = s.nextInst ∧
    (load_model reg env s key role).stopped = [] := by
  have hcomp' : ¬ info.compatible = false := by rw [hcomp]; simp
  by_cases hexc : info.exclusive = true
  · have hmem : (key, inst) ∈ s.loaded_models :=
      assocLookup_mem s.loaded_models key inst hloaded
    have hsolo : s.loaded_models = [(key, inst)] :=
      hinv (key, inst) hmem (by simp [isExclKey, hreg, hexc])
    have hne : s.loaded_models ≠ [] := by rw [hsolo]; simp
    have hE : evictLoop env key s.loaded_models = .done [(key, inst)] [] := by
      rw [hsolo]; simp [evictLoop]
    have hlook1 : assocLookup [(key, inst)] key = some inst := by
      simp [assocLookup]
    simp only [load_model, hreg, if_neg hcomp', if_pos (And.intro hexc hne), hE, hlook1]
    simp [hsolo]
  · have hex : ¬ (info.exclusive = true ∧ s.loaded_models ≠ []) := fun h => hexc h.1
    simp only [load_model, hreg, if_neg hcomp', if_neg hex, hloaded]
    simp

/-- Witness for C6 at a concrete input: `gpt-j-6b` already loaded as
instance 0; re-activating it returns instance 0 and changes nothing. -/
theorem c6_witness :
    (load_model stdRegistry ⟨true, fun _ => false⟩
      ⟨[("gpt-j-6b", 0)], some 0, none, 1⟩ "gpt-j-6b" "evaluation").result =
        .ok (some 0) ∧
    (load_model stdRegistry ⟨true, fun _ => false⟩
      ⟨[("gpt-j-6b", 0)], some 0, none, 1⟩ "gpt-j-6b" "evaluation").state.loaded_models =
        [("gpt-j-6b", 0)] ∧
    (load_model stdRegistry ⟨true, fun _ => false⟩
      ⟨[("gpt-j-6b", 0)], some 0, none, 1⟩ "gpt-j-6b" "evaluation").state.nextInst = 1 ∧
    (load_model stdRegistry ⟨true, fun _ => false⟩
      ⟨[("gpt-j-6b", 0)], some 0, none, 1⟩ "gpt-j-6b" "evaluation").stopped = [] :=
  c6_idempotent_activation stdRegistry ⟨true, fun _ => false⟩
    ⟨[("gpt-j-6b", 0)], some 0, none, 1⟩ "gpt-j-6b" "evaluation"
    ⟨false, true⟩ 0
    (by intro p hp hexcl; simp at hp; subst hp; rfl)
    (by decide) (by decide) (by decide)

/-- C2 counterexample: with the ResidencySet consisting solely of the
exclusive `gpt-oss-20b` (instance 0, bound to the chat role), re-activating
it completes and returns the cached instance, but the chat role pointer does
NOT still return that instance — the exclusive branch reset it to `None`. -/
theorem c2_counterexample :
    (load_model stdRegistry ⟨true, fun _ => false⟩
      ⟨[("gpt-oss-20b", 0)], some 0, none, 1⟩ "gpt-oss-20b" "chat").result =
        .ok (some 0) ∧
    (load_model stdRegistry ⟨true, fun _ => false⟩
      ⟨[("gpt-oss-20b", 0)], some 0, none, 1⟩ "gpt-oss-20b" "chat").state.chat_model =
        none ∧
    ¬ (load_model stdRegistry ⟨true, fun _ => false⟩
      ⟨[("gpt-oss-20b", 0)], some 0, none, 1⟩ "gpt-oss-20b" "chat").state.chat_model =
        some 0 := by
  decide

/-- C2 amended: when the ResidencySet already consists solely of the
requested exclusive key, re-activating it stops nothing and leaves the set
unchanged, returning the cached instance — but both role pointers are reset
to `None` (rather than left unchanged), so `get(role)` no longer returns the
instance for any role it was bound to. -/
theorem c2_exclusive_reactivation (reg : Registry) (env : PyEnv) (s : MgrState)
    (key role : String) (info : ModelInfo) (inst : Nat)
    (hreg : reg key = some info) (hexcl : info.exclusive = true)
    (hcomp : info.compatible = true)
    (hsolo : s.loaded_models = [(key, inst)]) :
    (load_model reg env s key role).result = .ok (some inst) ∧
    (load_model reg env s key role).state.loaded_models = [(key, inst)] ∧
    (load_model reg env s key role).stopped = [] ∧
    (load_model reg env s key role).state.chat_model = none ∧
    (load_model reg env s key role).state.evaluation_model = none := by
  have hcomp' : ¬ info.compatible = false := by rw [hcomp]; simp
  have hne : s.loaded_models ≠ [] := by rw [hsolo]; simp
  have hE : evictLoop env key s.loaded_models = .done [(key, inst)] [] := by
    rw [hsolo]; simp [evictLoop]
  have hlook1 : assocLookup [(key, inst)] key = some inst := by simp [assocLookup]
  simp only [load_model, hreg, if_neg hcomp', if_pos (And.intro hexcl hne), hE, hlook1]
  simp

/-- Witness for C2's amended theorem at a concrete input. -/
theorem c2_witness :
    (load_model stdRegistry ⟨true, fun _ => false⟩
      ⟨[("gpt-oss-20b", 3)], some 3, none, 4⟩ "gpt-oss-20b" "evaluation").result =
        .ok (some 3) ∧
    (load_model stdRegistry ⟨true, fun _ => false⟩
      ⟨[("gpt-oss-20b", 3)], some 3, none, 4⟩ "gpt-oss-20b" "evaluation").state.loaded_models =
        [("gpt-oss-20b", 3)] ∧
    (load_model stdRegistry ⟨true, fun _ => false⟩
      ⟨[("gpt-oss-20b", 3)], some 3, none, 4⟩ "gpt-oss-20b" "evaluation").stopped = [] ∧
    (load_model stdRegistry ⟨true, fun _ => false⟩
      ⟨[("gpt-oss-20b", 3)], some 3, none, 4⟩ "gpt-oss-20b" "evaluation").state.chat_model =
        none ∧
    (load_model stdRegistry ⟨true, fun _ => false⟩
      ⟨[("gpt-oss-20b", 3)], some 3, none, 4⟩ "gpt-oss-20b" "evaluation").state.evaluation_model =
        none :=
  c2_exclusive_reactivation stdRegistry ⟨true, fun _ => false⟩
    ⟨[("gpt-oss-20b", 3)], some 3, none, 4⟩ "gpt-oss-20b" "evaluation"
    ⟨true, true⟩ 3 (by decide) (by decide) (by decide) (by decide)

/-- C10 counterexample: `gpt-oss-20b` (exclusive) is already loaded as
instance 0 and bound to the evaluation role; re-activating it for the
evaluation role does NOT keep the role pointer's prior value — the pointer is
reset to `None`. -/
theorem c10_counterexample :
    (load_model stdRegistry ⟨true, fun _ => false⟩
      ⟨[("gpt-oss-20b", 0)], none, some 0, 1⟩ "gpt-oss-20b" "evaluation").result =
        .ok (some 0) ∧
    (load_model stdRegistry ⟨true, fun _ => false⟩
      ⟨[("gpt-oss-20b", 0)], none, some 0, 1⟩ "gpt-oss-20b" "evaluation").state.evaluation_model =
        none ∧
    ¬ (load_model stdRegistry ⟨true, fun _ => false⟩
      ⟨[("gpt-oss-20b", 0)], none, some 0, 1⟩ "gpt-oss-20b" "evaluation").state.evaluation_model =
        some 0 := by
  decide

/-- C10 amended: the already-loaded early return never binds the cached
instance to the requested role; for a non-exclusive key the role pointers
keep their prior values, while for an exclusive key both pointers are first
reset to `None`; in either case, if `get(role)` did not return the instance
before the call it does not return it after. -/
theorem c10_no_role_binding (reg : Registry) (env : PyEnv) (s : MgrState)
    (key role : String) (info : ModelInfo) (inst : Nat)
    (hinv : ExclusiveInv reg s.loaded_models)
    (hreg : reg key = some info) (hcomp : info.compatible = true)
    (hloaded : assocLookup s.loaded_models key = some inst) :
    (load_model reg env s key role).result = .ok (some inst) ∧
    (info.exclusive = false →
      (load_model reg env s key role).state.chat_model = s.chat_model ∧
      (load_model reg env s key role).state.evaluation_model = s.evaluation_model) ∧
    (info.exclusive = true →
      (load_model reg env s key role).state.chat_model = none ∧
      (load_model reg env s key role).state.evaluation_model = none) ∧
    (roleGet s role ≠ some inst →
      roleGet (load_model reg env s key role).state role ≠ some inst) := by
  have hcomp' : ¬ info.compatible = false := by rw [hcomp]; simp
  by_cases hexc : info.exclusive = true
  · have hmem : (key, inst) ∈ s.loaded_models :=
      assocLookup_mem s.loaded_models key inst hloaded
    have hsolo : s.loaded_models = [(key, inst)] :=
      hinv (key, inst) hmem (by simp [isExclKey, hreg, hexc])
    have hne : s.loaded_models ≠ [] := by rw [hsolo]; simp
    have hE : evictLoop env key s.loaded_models = .done [(key, inst)] [] := by
      rw [hsolo]; simp [evictLoop]
    have hlook1 : assocLookup [(key, inst)] key = some inst := by simp [assocLookup]
    have hcall : load_model reg env s key role =
        ⟨.ok (some inst),
         { s with loaded_models := [(key, inst)],
                  chat_model := none, evaluation_model := none }, []⟩ := by
      simp only [load_model, hreg, if_neg hcomp', if_pos (And.intro hexc hne), hE, hlook1]
    rw [hcall]
    refine ⟨rfl, ?_, fun _ => ⟨rfl, rfl⟩, fun _ => ?_⟩
    · intro h; rw [h] at hexc; cases hexc
    · unfold roleGet
      split
      · simp
      · split
        · simp
        · simp
  · have hex : ¬ (info.exclusive = true ∧ s.loaded_models ≠ []) := fun h => hexc h.1
    have hcall : load_model reg env s key role = ⟨.ok (some inst), s, []⟩ := by
      simp only [load_model, hreg, if_neg hcomp', if_neg hex, hloaded]
    rw [hcall]
    exact ⟨rfl, fun _ => ⟨rfl, rfl⟩, fun h => absurd h hexc, fun h => h⟩

/-- Witness for C10's amended theorem at a concrete input (non-exclusive
`gpt-j-6b` already loaded for chat, re-activated for evaluation). -/
theorem c10_witness :
    (load_model stdRegistry ⟨true, fun _ => false⟩
      ⟨[("gpt-j-6b", 0)], some 0, none, 1⟩ "gpt-j-6b" "evaluation").result =
        .ok (some 0) ∧
    ((⟨false, true⟩ : ModelInfo).exclusive = false →
      (load_model stdRegistry ⟨true, fun _ => false⟩
        ⟨[("gpt-j-6b", 0)], some 0, none, 1⟩ "gpt-j-6b" "evaluation").state.chat_model =
          some 0 ∧
      (load_model stdRegistry ⟨true, fun _ => false⟩
        ⟨[("gpt-j-6b", 0)], some 0, none, 1⟩ "gpt-j-6b" "evaluation").state.evaluation_model =
          none) ∧
    ((⟨false, true⟩ : ModelInfo).exclusive = true →
      (load_model stdRegistry ⟨true, fun _ => false⟩
        ⟨[("gpt-j-6b", 0)], some 0, none, 1⟩ "gpt-j-6b" "evaluation").state.chat_model =
          none ∧
      (load_model stdRegistry ⟨true, fun _ => false⟩
        ⟨[("gpt-j-6b", 0)], some 0, none, 1⟩ "gpt-j-6b" "evaluation").state.evaluation_model =
          none) ∧
    (roleGet ⟨[("gpt-j-6b", 0)], some 0, none, 1⟩ "evaluation" ≠ some 0 →
      roleGet (load_model stdRegistry ⟨true, fun _ => false⟩
        ⟨[("gpt-j-6b", 0)], some 0, none, 1⟩ "gpt-j-6b" "evaluation").state "evaluation" ≠
        some 0) := by
  have h := c10_no_role_binding stdRegistry ⟨true, fun _ => false⟩
    ⟨[("gpt-j-6b", 0)], some 0, none, 1⟩ "gpt-j-6b" "evaluation"
    ⟨false, true⟩ 0
    (by intro p hp hexcl; simp at hp; subst hp; rfl)
    (by decide) (by decide) (by decide)
  refine ⟨h.1, ?_, h.2.2.1, h.2.2.2⟩
  intro hf
  have := h.2.1 hf
  exact ⟨by rw [this.1], by rw [this.2]⟩

/-- C9 counterexample: with non-exclusive `gpt-j-6b` resident (instance 0)
and an environment in which its `unload()` raises, activating the exclusive
`gpt-oss-20b` raises out of `load_model` (the eviction loop has no
try/except): the error IS surfaced to the caller, the new model is never
started (no instance is constructed and its key is absent), contradicting
the claim that eviction failures are logged only. -/
theorem c9_counterexample :
    (load_model stdRegistry ⟨true, fun _ => true⟩
      ⟨[("gpt-j-6b", 0)], some 0, none, 1⟩ "gpt-oss-20b" "chat").result = .raised ∧
    assocLookup (load_model stdRegistry ⟨true, fun _ => true⟩
      ⟨[("gpt-j-6b", 0)], some 0, none, 1⟩ "gpt-oss-20b" "chat").state.loaded_models
      "gpt-oss-20b" = none ∧
    (load_model stdRegistry ⟨true, fun _ => true⟩
      ⟨[("gpt-j-6b", 0)], some 0, none, 1⟩ "gpt-oss-20b" "chat").state.nextInst = 1 := by
  decide

/-- C9 amended: eviction during exclusive activation is NOT best-effort — if
the `unload()` of some other resident instance raises, the exception
propagates out of `load_model` (result `raised`), the activation is aborted
before the new model starts (no instance is constructed), and a key not
previously resident stays absent. -/
theorem c9_eviction_failure_propagates (reg : Registry) (env : PyEnv)
    (s : MgrState) (key role : String) (info : ModelInfo)
    (hreg : reg key = some info) (hexcl : info.exclusive = true)
    (hcomp : info.compatible = true)
    (hbad : ∃ p ∈ s.loaded_models, p.1 ≠ key ∧ env.unloadRaises p.2 = true) :
    (load_model reg env s key role).result = .raised ∧
    (load_model reg env s key role).state.nextInst = s.nextInst ∧
    (assocLookup s.loaded_models key = none →
      assocLookup (load_model reg env s key role).state.loaded_models key = none) := by
  have hcomp' : ¬ info.compatible = false := by rw [hcomp]; simp
  have hne : s.loaded_models ≠ [] := by
    intro h
    rw [h] at hbad
    obtain ⟨p, hp, _⟩ := hbad
    simp at hp
  obtain ⟨r, st, hE⟩ := evictLoop_raises_of_bad env key s.loaded_models hbad
  have hcall : load_model reg env s key role =
      ⟨.raised, { s with loaded_models := r }, st⟩ := by
    simp only [load_model, hreg, if_neg hcomp', if_pos (And.intro hexcl hne), hE]
  rw [hcall]
  refine ⟨rfl, rfl, fun hnone => ?_⟩
  exact assocLookup_none_of_sublist
    (evictLoop_raised_sublist env key s.loaded_models r st hE) hnone

/-- Witness for C9's amended theorem at a concrete input. -/
theorem c9_witness :
    (load_model stdRegistry ⟨true, fun _ => true⟩
      ⟨[("gpt-j-6b", 7)], some 7, none, 8⟩ "gpt-oss-20b" "evaluation").result = .raised ∧
    (load_model stdRegistry ⟨true, fun _ => true⟩
      ⟨[("gpt-j-6b", 7)], some 7, none, 8⟩ "gpt-oss-20b" "evaluation").state.nextInst = 8 ∧
    (assocLookup [("gpt-j-6b", 7)] "gpt-oss-20b" = none →
      assocLookup (load_model stdRegistry ⟨true, fun _ => true⟩
        ⟨[("gpt-j-6b", 7)], some 7, none, 8⟩ "gpt-oss-20b" "evaluation").state.loaded_models
        "gpt-oss-20b" = none) :=
  c9_eviction_failure_propagates stdRegistry ⟨true, fun _ => true⟩
    ⟨[("gpt-j-6b", 7)], some 7, none, 8⟩ "gpt-oss-20b" "evaluation"
    ⟨true, true⟩ (by decide) (by decide) (by decide)
    ⟨("gpt-j-6b", 7), by decide, by decide, by decide⟩

theorem healthLoop_timeout (health : Nat → Option Nat) (exited : Nat → Bool)
    (h200 : ∀ i, health i ≠ some 200) (hexit : ∀ i, exited i = false) :
    ∀ (fuel i : Nat), healthLoop health exited fuel i = .error .timeout := by
  intro fuel
  induction fuel with
  | zero => intro i; simp [healthLoop, hexit i]
  | succ n ih => intro i; simp [healthLoop, h200 i, hexit i, ih (i + 1)]

theorem load_model_no_new_key (reg : Registry) (env : PyEnv) (s : MgrState)
    (key role : String)
    (hnot : assocLookup s.loaded_models key = none) (hfail : env.loadOk = false) :
    assocLookup (load_model reg env s key role).state.loaded_models key = none := by
  cases hreg : reg key with
  | none => simpa [load_model, hreg] using hnot
  | some info =>
    by_cases hcomp : info.compatible = false
    · simpa [load_model, hreg, hcomp] using hnot
    · by_cases hex2 : info.exclusive = true ∧ s.loaded_models ≠ []
      · cases hE : evictLoop env key s.loaded_models with
        | done r st =>
          have hr := evictLoop_done_eq env key s.loaded_models r st hE
          have hrnone : assocLookup r key = none := by
            rw [hr]
            exact assocLookup_none_of_sublist (List.filter_sublist _) hnot
          by_cases hrev : (r.any (fun p => isExclKey reg p.1)) = true ∧
              info.exclusive = false
          · have hcall : load_model reg env s key role =
                ⟨.ok none,
                 { s with loaded_models := r,
                          chat_model := none, evaluation_model := none }, st⟩ := by
              simp only [load_model, hreg, if_neg hcomp, if_pos hex2, hE, hrnone,
                if_pos hrev]
            rw [hcall]
            exact hrnone
          · have hcall : load_model reg env s key role =
                ⟨.ok none,
                 { s with loaded_models := r,
                          chat_model := none, evaluation_model := none }, st⟩ := by
              simp only [load_model, hreg, if_neg hcomp, if_pos hex2, hE, hrnone,
                if_neg hrev, hfail]
              simp
            rw [hcall]
            exact hrnone
        | raised r st =>
          have hrnone : assocLookup r key = none :=
            assocLookup_none_of_sublist
              (evictLoop_raised_sublist env key s.loaded_models r st hE) hnot
          have hcall : load_model reg env s key role =
              ⟨.raised, { s with loaded_models := r }, st⟩ := by
            simp only [load_model, hreg, if_neg hcomp, if_pos hex2, hE]
          rw [hcall]
          exact hrnone
      · by_cases hrev : (s.loaded_models.any (fun p => isExclKey reg p.1)) = true ∧
            info.exclusive = false
        · have hcall : load_model reg env s key role = ⟨.ok none, s, []⟩ := by
            simp only [load_model, hreg, if_neg hcomp, if_neg hex2, hnot, if_pos hrev]
          rw [hcall]
          exact hnot
        · have hcall : load_model reg env s key role = ⟨.ok none, s, []⟩ := by
            simp only [load_model, hreg, if_neg hcomp, if_neg hex2, hnot,
              if_neg hrev, hfail]
            simp
          rw [hcall]
          exact hnot

/-- C5: if the health endpoint never returns 200 within the 120-iteration
polling window and the server process never exits, `GPTOSSModel.load_model`
fails with the timeout error (`TimeoutError`), not the launch-crash error
(`RuntimeError`); and a `load_model` call whose adapter start fails leaves
the manager's `loaded_models` without an instance for that key. -/
theorem c5_health_timeout (health : Nat → Option Nat) (exited : Nat → Bool)
    (h200 : ∀ i, health i ≠ some 200) (hexit : ∀ i, exited i = false)
    (reg : Registry) (env : PyEnv) (s : MgrState) (key role : String)
    (hnot : assocLookup s.loaded_models key = none) (hfail : env.loadOk = false) :
    gptoss_load_model health exited = .error .timeout ∧
    gptoss_load_model health exited ≠ .error .crash ∧
    assocLookup (load_model reg env s key role).state.loaded_models key = none := by
  have hloop := healthLoop_timeout health exited h200 hexit 120 0
  refine ⟨?_, ?_, load_model_no_new_key reg env s key role hnot hfail⟩
  · simp [gptoss_load_model, hloop]
  · simp [gptoss_load_model, hloop]

/-- Witness for C5 at a concrete input: a health trace that never answers
and a process that never exits. -/
theorem c5_witness :
    gptoss_load_model (fun _ => none) (fun _ => false) = .error .timeout ∧
    gptoss_load_model (fun _ => none) (fun _ => false) ≠ .error .crash ∧
    assocLookup (load_model stdRegistry ⟨false, fun _ => false⟩
      initState "gpt-oss-20b" "chat").state.loaded_models "gpt-oss-20b" = none :=
  c5_health_timeout (fun _ => none) (fun _ => false)
    (fun i => by simp) (fun i => rfl)
    stdRegistry ⟨false, fun _ => false⟩ initState "gpt-oss-20b" "chat"
    (by decide) (by decide)

/-- A ten-exchange (20-message) conversation history, alternating
user/assistant roles with distinct contents. -/
def hist20 : List Msg :=
  (List.range 20).map
    (fun n => ⟨if n % 2 = 0 then "user" else "assistant", toString n⟩)

set_option maxRecDepth 8000 in
/-- C3 (failing input): `PhiTutor.format_prompt` includes ALL 20 messages of
a ten-exchange supplied history in its prompt — not at most the last six —
while the GPT-OSS and Llama 3.1 adapters do slice the history to `[-6:]`.
This contradicts the claim (and Phi's own "(last 3 Q&A pairs)" comment). -/
theorem c3_phi_history_not_truncated :
    hist20.length = 20 ∧
    (phi_format_prompt_messages "sys" hist20 "question").length = 22 ∧
    (∀ m ∈ hist20, m ∈ phi_format_prompt_messages "sys" hist20 "question") ∧
    (gptoss_history_msgs hist20).length = 6 ∧
    (llama31_history_msgs hist20).length = 6 ∧
    gptoss_history_msgs hist20 = hist20.drop 14 ∧
    llama31_history_msgs hist20 = hist20.drop 14 := by
  decide

/-- A 30-word message containing no greeting token, no math marker and no
explanation marker. -/
def msg30 : String :=
  "cat dog fox owl bat elk cow hen ram sow cat dog fox owl bat elk cow hen ram sow cat dog fox owl bat elk cow hen ram sow"

set_option maxRecDepth 8000 in
/-- C4 counterexample: `msg30` has 30 words and none of the marker tokens,
and the caller requests 2048 tokens (which the app layer leaves at 2048) —
yet the effective `max_new_tokens` is 1024, not the claimed request-clamped-
to-2048 value: the long-question branch caps at 1024. -/
theorem c4_counterexample :
    pyWordCount (pyStrip msg30) = 30 ∧
    greetings.all (fun g => !(pyContains (pyStrip (pyLower msg30)) g)) = true ∧
    mathOps.all (fun op => !(pyContains (pyStrip (pyLower msg30)) op)) = true ∧
    explanationWords.all (fun w => !(pyContains (pyStrip (pyLower msg30)) w)) = true ∧
    phi_effective_max_tokens msg30 (app_clamp_max_new_tokens 2048) = 1024 ∧
    specEffectiveC4 2048 = 2048 ∧
    (1024 : Int) ≠ 2048 := by
  decide

/-- C4 amended: for a message of more than 25 words with no greeting, math
or explanation markers, the effective `max_new_tokens` is the caller's
request clamped to [128, 2048] by the app layer and then capped at 1024 by
the long-question branch: `min (max 128 (min 2048 requested)) 1024`. -/
theorem c4_long_question_token_cap (user_message : String) (requested : Int)
    (hw : 25 < pyWordCount (pyStrip user_message))
    (hg : ∀ g ∈ greetings, pyContains (pyStrip (pyLower user_message)) g = false)
    (hm : ∀ op ∈ mathOps, pyContains (pyStrip (pyLower user_message)) op = false)
    (he : ∀ w ∈ explanationWords,
      pyContains (pyStrip (pyLower user_message)) w = false) :
    phi_effective_max_tokens user_message (app_clamp_max_new_tokens requested) =
      min (max 128 (min 2048 requested)) 1024 := by
  unfold phi_effective_max_tokens
  have h5 : ¬ pyWordCount (pyStrip user_message) ≤ 5 := by omega
  have h15 : ¬ pyWordCount (pyStrip user_message) ≤ 15 := by omega
  have h10 : ¬ pyWordCount (pyStrip user_message) ≤ 10 := by omega
  have h25 : ¬ pyWordCount (pyStrip user_message) ≤ 25 := by omega
  have hc1 : ¬ ((greetings.any fun g => pyContains (pyStrip (pyLower user_message)) g) = true ∧
      pyWordCount (pyStrip user_message) ≤ 5) := fun h => h5 h.2
  have hc2 : ¬ ((mathOps.any fun g => pyContains (pyStrip (pyLower user_message)) g) = true ∧
      pyWordCount (pyStrip user_message) ≤ 15) := fun h => h15 h.2
  simp only [if_neg hc1, if_neg hc2, if_neg h10, if_neg h25]
  rfl

set_option maxRecDepth 8000 in
/-- Witness for C4's amended theorem at the concrete 30-word input. -/
theorem c4_witness :
    phi_effective_max_tokens msg30 (app_clamp_max_new_tokens 2048) =
      min (max 128 (min 2048 2048)) 1024 :=
  c4_long_question_token_cap msg30 2048 (by decide) (by decide) (by decide)
    (by decide)

theorem cleanLine_iff (l : String) :
    cleanLine l = true ↔ (pyStrip l ≠ "" ∧ isReasoningLine l = false) := by
  unfold cleanLine
  rw [Bool.and_eq_true, bne_iff_ne, Bool.not_eq_true']

theorem answerStartGo_spec :
    ∀ (ls : List String) (i asi : Nat), asi ≤ i →
      (∀ suf, firstCleanSuffix ls = some suf →
        i ≤ answerStartGo asi i ls ∧
        ls.drop (answerStartGo asi i ls - i) = suf) ∧
      (firstCleanSuffix ls = none →
        asi ≤ answerStartGo asi i ls ∧
        ∀ l ∈ ls.drop (answerStartGo asi i ls - i), pyStrip l = "") := by
  intro ls
  induction ls with
  | nil =>
    intro i asi hle
    constructor
    · intro suf hsuf; simp [firstCleanSuffix] at hsuf
    · intro _
      refine ⟨Nat.le_refl _, ?_⟩
      intro l hl
      simp only [answerStartGo] at hl
      rw [List.drop_nil] at hl
      simp at hl
  | cons l ls ih =>
    intro i asi hle
    by_cases hcl : cleanLine l = true
    · obtain ⟨hb, hre⟩ := (cleanLine_iff l).mp hcl
      have hgo : answerStartGo asi i (l :: ls) = i := by
        simp only [answerStartGo, if_neg hb, hre]
        simp
      have hfc : firstCleanSuffix (l :: ls) = some (l :: ls) := by
        simp [firstCleanSuffix, hcl]
      constructor
      · intro suf hsuf
        rw [hfc] at hsuf
        obtain rfl : l :: ls = suf := by injection hsuf
        rw [hgo]
        exact ⟨Nat.le_refl _, by simp⟩
      · intro hnone; rw [hfc] at hnone; cases hnone
    · have hfc : firstCleanSuffix (l :: ls) = firstCleanSuffix ls := by
        simp [firstCleanSuffix, hcl]
      by_cases hb : pyStrip l = ""
      · have hgo : answerStartGo asi i (l :: ls) = answerStartGo asi (i + 1) ls := by
          simp only [answerStartGo, if_pos hb]
        have ih' := ih (i + 1) asi (Nat.le_trans hle (Nat.le_succ i))
        constructor
        · intro suf hsuf
          rw [hfc] at hsuf
          obtain ⟨hle', hdrop⟩ := ih'.1 suf hsuf
          rw [hgo]
          refine ⟨Nat.le_trans (Nat.le_succ i) hle', ?_⟩
          have harith : answerStartGo asi (i + 1) ls - i =
              (answerStartGo asi (i + 1) ls - (i + 1)) + 1 := by omega
          rw [harith, List.drop_succ_cons]
          exact hdrop
        · intro hnone
          rw [hfc] at hnone
          obtain ⟨hasi, hblank⟩ := ih'.2 hnone
          rw [hgo]
          refine ⟨hasi, ?_⟩
          intro l' hl'
          by_cases hri : answerStartGo asi (i + 1) ls ≤ i
          · have h0 : answerStartGo asi (i + 1) ls - i = 0 := by omega
            have h0' : answerStartGo asi (i + 1) ls - (i + 1) = 0 := by omega
            rw [h0, List.drop_zero] at hl'
            rw [h0', List.drop_zero] at hblank
            rcases List.mem_cons.mp hl' with rfl | hmem
            · exact hb
            · exact hblank l' hmem
          · have harith : answerStartGo asi (i + 1) ls - i =
                (answerStartGo asi (i + 1) ls - (i + 1)) + 1 := by omega
            rw [harith, List.drop_succ_cons] at hl'
            exact hblank l' hl'
      · have hre : isReasoningLine l = true := by
          by_contra hre
          exact hcl ((cleanLine_iff l).mpr ⟨hb, Bool.not_eq_true _ ▸ eq_false_of_ne_true hre⟩)
        have hgo : answerStartGo asi i (l :: ls) =
            answerStartGo (i + 1) (i + 1) ls := by
          simp only [answerStartGo, if_neg hb, hre]
          simp
        have ih' := ih (i + 1) (i + 1) (Nat.le_refl _)
        constructor
        · intro suf hsuf
          rw [hfc] at hsuf
          obtain ⟨hle', hdrop⟩ := ih'.1 suf hsuf
          rw [hgo]
          refine ⟨Nat.le_trans (Nat.le_succ i) hle', ?_⟩
          have harith : answerStartGo (i + 1) (i + 1) ls - i =
              (answerStartGo (i + 1) (i + 1) ls - (i + 1)) + 1 := by omega
          rw [harith, List.drop_succ_cons]
          exact hdrop
        · intro hnone
          rw [hfc] at hnone
          obtain ⟨hasi, hblank⟩ := ih'.2 hnone
          rw [hgo]
          refine ⟨by omega, ?_⟩
          intro l' hl'
          have harith : answerStartGo (i + 1) (i + 1) ls - i =
              (answerStartGo (i + 1) (i + 1) ls - (i + 1)) + 1 := by omega
          rw [harith, List.drop_succ_cons] at hl'
          exact hblank l' hl'

theorem firstCleanSuffix_some_head :
    ∀ (ls suf : List String), firstCleanSuffix ls = some suf →
      ∃ l ls', suf = l :: ls' ∧ cleanLine l = true := by
  intro ls
  induction ls with
  | nil => intro suf hsuf; simp [firstCleanSuffix] at hsuf
  | cons l ls ih =>
    intro suf hsuf
    by_cases hcl : cleanLine l = true
    · simp only [firstCleanSuffix, if_pos hcl, Option.some.injEq] at hsuf
      exact ⟨l, ls, hsuf.symm, hcl⟩
    · simp only [firstCleanSuffix, if_neg hcl] at hsuf
      exact ih suf hsuf

theorem extract_final_eq_amended (text : String) :
    extract_final_answer text = specExtractAmendedC7 text := by
  unfold extract_final_answer specExtractAmendedC7
  have hspec := answerStartGo_spec (pySplitLines (pyStrip (tagStrip text))) 0 0
    (Nat.le_refl 0)
  cases hsuf : firstCleanSuffix (pySplitLines (pyStrip (tagStrip text))) with
  | some suf =>
    obtain ⟨_, hdrop⟩ := hspec.1 suf hsuf
    rw [Nat.sub_zero] at hdrop
    obtain ⟨l, ls', rfl, hcl⟩ := firstCleanSuffix_some_head _ suf hsuf
    obtain ⟨hb, _⟩ := (cleanLine_iff l).mp hcl
    simp only [hsuf, hdrop]
    have hfil : ((l :: ls').map pyStrip).filter (fun x => decide (x ≠ "")) =
        pyStrip l :: (ls'.map pyStrip).filter (fun x => decide (x ≠ "")) := by
      rw [List.map_cons, List.filter_cons_of_pos]
      simp [hb]
    rw [hfil]
    simp [List.isEmpty]
  | none =>
    obtain ⟨_, hblank⟩ := hspec.2 hsuf
    rw [Nat.sub_zero] at hblank
    have hfil : (((pySplitLines (pyStrip (tagStrip text))).drop
        (answerStartGo 0 0 (pySplitLines (pyStrip (tagStrip text))))).map pyStrip).filter
        (fun x => decide (x ≠ "")) = [] := by
      rw [List.filter_eq_nil_iff]
      intro a ha
      obtain ⟨l, hl, rfl⟩ := List.mem_map.mp ha
      simp [hblank l hl]
    simp only [hsuf, hfil]
    rfl

/-- C7 counterexample: on `"4\n\n5"` the claim's reading (everything from the
first phrase-free line onward, preserving line breaks) yields `"4\n\n5"`,
but `_extract_final_answer` returns `"4\n5"` — the blank line is dropped. -/
theorem c7_counterexample :
    extract_final_answer "4\n\n5" = "4\n5" ∧
    specExtractC7 "4\n\n5" = "4\n\n5" ∧
    extract_final_answer "4\n\n5" ≠ specExtractC7 "4\n\n5" := by
  decide

/-- C7 amended: `_extract_final_answer` returns the stripped non-blank lines
from the first non-blank meta-phrase-free line onward, joined with single
newlines (blank lines dropped, per-line whitespace trimmed), falling back to
the tag-stripped trimmed text when no such line exists; in particular on
`"Let me think about this. The answer is 4.\n4"` it returns `"4"`. -/
theorem c7_extract_final_characterization :
    (∀ text, extract_final_answer text = specExtractAmendedC7 text) ∧
    extract_final_answer "Let me think about this. The answer is 4.\n4" = "4" := by
  refine ⟨extract_final_eq_amended, ?_⟩
  decide

/-- C8 counterexample: for the non-empty input `"\n"` every non-empty line
(vacuously) contains a meta phrase, yet `_extract_final_answer` returns
`""`, not the full input unchanged — an empty answer for a non-empty
input. -/
theorem c8_counterexample :
    ((pySplitLines "\n").all
      (fun l => (pyStrip l == "") || isReasoningLine l)) = true ∧
    extract_final_answer "\n" = "" ∧
    ("\n" : String) ≠ "" ∧
    extract_final_answer "\n" ≠ "\n" := by
  decide

theorem firstCleanSuffix_none_of_all :
    ∀ (ls : List String),
      (∀ l ∈ ls, pyStrip l = "" ∨ isReasoningLine l = true) →
      firstCleanSuffix ls = none := by
  intro ls
  induction ls with
  | nil => intro _; rfl
  | cons l ls ih =>
    intro h
    have hcl : ¬ cleanLine l = true := by
      intro hcl
      obtain ⟨hb, hre⟩ := (cleanLine_iff l).mp hcl
      rcases h l (List.mem_cons_self l ls) with hb' | hre'
      · exact hb hb'
      · rw [hre] at hre'; cases hre'
    simp only [firstCleanSuffix, if_neg hcl]
    exact ih (fun l' hl' => h l' (List.mem_cons_of_mem l hl'))

/-- C8 amended: when every non-blank line of the tag-stripped trimmed text
contains a meta phrase, `_extract_final_answer` falls back to the
tag-stripped text trimmed of surrounding whitespace (not the input
character-for-character unchanged); the answer is non-empty exactly when
that trimmed tag-stripped text is non-empty. -/
theorem c8_fallback (text : String)
    (h : ∀ l ∈ pySplitLines (pyStrip (tagStrip text)),
      pyStrip l = "" ∨ isReasoningLine l = true) :
    extract_final_answer text = pyStrip (tagStrip text) ∧
    (pyStrip (tagStrip text) ≠ "" → extract_final_answer text ≠ "") := by
  have hnone := firstCleanSuffix_none_of_all _ h
  have heq := extract_final_eq_amended text
  have hspec : specExtractAmendedC7 text = pyStrip (tagStrip text) := by
    unfold specExtractAmendedC7
    simp only [hnone]
  constructor
  · rw [heq, hspec]
  · intro hne
    rw [heq, hspec]
    exact hne

/-- Witness for C8's amended theorem at the concrete input `"wait"` (its one
line is a meta-phrase line, so the fallback fires and returns `"wait"`). -/
theorem c8_witness :
    extract_final_answer "wait" = pyStrip (tagStrip "wait") ∧
    (pyStrip (tagStrip "wait") ≠ "" → extract_final_answer "wait" ≠ "") :=
  c8_fallback "wait" (by decide)
